import Mathlib

/-!
Verification of the `buntime` sandbox worker (`src/worker.py`) against its
specification.  The Python code is shallowly embedded: the shared-memory
ring buffer (`SharedRingBuffer`), the output sink (`ShmOut.write` retry
loop), the embedded policy evaluator (`resolve_action`, `match_fs_action`,
`match_net_action`, `match_exec_action`, `precompile_policy`,
`port_matches`, `parse_port_ranges`) and the interception hooks
(`guarded_open`, `guarded_listdir`, `guarded_run`,
`guarded_create_connection`) become executable Lean functions over explicit
state.  Machine integers are `Nat`/`Int` with explicit wraparound where the
source wraps; byte buffers are `List Nat`; the backing shared-memory data
area is a function `Nat → Nat`.
-/

namespace Buntime

/-! ## Ring buffer (`SharedRingBuffer`, worker.py lines 18-114)

The Python object reads `head`, `tail`, `capacity` from a 64-byte header
inside a shared-memory slab and addresses the data area behind it.  The
embedding keeps the three header words as fields and the data area as a
total function from offsets to byte values.  `struct.pack("<I", v)` /
`struct.unpack("<I", bs)` become `le32` / `le32Decode`. -/

structure SharedRingBuffer where
  head : Nat
  tail : Nat
  cap  : Nat
  data : Nat → Nat

/-- `struct.pack("<I", n)`: 4 little-endian bytes. -/
def le32 (n : Nat) : List Nat :=
  [n % 256, n / 256 % 256, n / 65536 % 256, n / 16777216 % 256]

/-- `struct.unpack("<I", bs)[0]` on a 4-byte buffer. -/
def le32Decode (bs : List Nat) : Nat :=
  bs.getD 0 0 + 256 * bs.getD 1 0 + 65536 * bs.getD 2 0 + 16777216 * bs.getD 3 0

/-- `(tail - head + cap) % cap`, carried out in Python's exact integers
(which may go through a negative intermediate value, hence `Int`). -/
def ringSize (head tail cap : Nat) : Nat :=
  (((tail : Int) - (head : Int) + (cap : Int)) % (cap : Int)).toNat

/-- The slice assignment `buf[start : start + len(bs)] = bs`. -/
def setRange (d : Nat → Nat) (start : Nat) (bs : List Nat) : Nat → Nat :=
  fun i => if start ≤ i ∧ i < start + bs.length then bs.getD (i - start) 0 else d i

/-- `SharedRingBuffer._write_raw`: write `bs` at `start`, wrapping at `cap`
by splitting into at most two contiguous spans. -/
def writeRaw (d : Nat → Nat) (bs : List Nat) (startOffset cap : Nat) : Nat → Nat :=
  let bytesLen := bs.length
  let firstChunk := min bytesLen (cap - startOffset)
  let d1 := setRange d startOffset (bs.take firstChunk)
  if firstChunk < bytesLen then setRange d1 0 (bs.drop firstChunk) else d1

/-- `SharedRingBuffer._read_raw`: read `length` bytes at `start`, wrapping
at `cap` by splitting into at most two contiguous spans. -/
def readRaw (d : Nat → Nat) (length startOffset cap : Nat) : List Nat :=
  let firstChunk := min length (cap - startOffset)
  let chunk1 := (List.range firstChunk).map (fun k => d (startOffset + k))
  if firstChunk < length then
    chunk1 ++ (List.range (length - firstChunk)).map (fun k => d k)
  else chunk1

/-- `SharedRingBuffer.write` (worker.py lines 42-60). -/
def SharedRingBuffer.write (r : SharedRingBuffer) (data : List Nat) :
    Nat × SharedRingBuffer :=
  let dataLen := data.length
  let size := ringSize r.head r.tail r.cap
  let available := r.cap - size - 1
  if available < 4 + dataLen then (0, r)
  else
    let lenBytes := le32 dataLen
    let d1 := writeRaw r.data lenBytes r.tail r.cap
    let tail1 := (r.tail + 4) % r.cap
    let d2 := writeRaw d1 data tail1 r.cap
    let tail2 := (tail1 + dataLen) % r.cap
    (dataLen, { r with data := d2, tail := tail2 })

/-- `SharedRingBuffer.read` (worker.py lines 75-98). -/
def SharedRingBuffer.read (r : SharedRingBuffer) :
    Option (List Nat) × SharedRingBuffer :=
  if r.head = r.tail then (none, r)
  else
    let size := ringSize r.head r.tail r.cap
    if size < 4 then (none, r)
    else
      let lenBytes := readRaw r.data 4 r.head r.cap
      let msgLen := le32Decode lenBytes
      if size < 4 + msgLen then (none, r)
      else
        let head1 := (r.head + 4) % r.cap
        let payload := readRaw r.data msgLen head1 r.cap
        let head2 := (head1 + msgLen) % r.cap
        (some payload, { r with head := head2 })

/-- The ring a host initializes before the worker attaches: zeroed data
area, both cursors at 0. -/
def emptyRing (cap : Nat) : SharedRingBuffer := ⟨0, 0, cap, fun _ => 0⟩

/-! ### Arithmetic facts about the cursor encoding -/

theorem le32_length (n : Nat) : (le32 n).length = 4 := rfl

theorem le32Decode_le32 (n : Nat) (h : n < 2 ^ 32) : le32Decode (le32 n) = n := by
  show n % 256 + 256 * (n / 256 % 256) + 65536 * (n / 65536 % 256) +
      16777216 * (n / 16777216 % 256) = n
  omega

theorem ringSize_eq (h t c : Nat) (hh : h < c) (ht : t < c) :
    ringSize h t c = if h ≤ t then t - h else c - (h - t) := by
  unfold ringSize
  rcases le_or_lt h t with hle | hlt
  · rw [if_pos hle,
      show ((t : Int) - h + c) = (t - h) + c * 1 by ring,
      Int.add_mul_emod_self_left,
      Int.emod_eq_of_lt (by omega) (by omega)]
    omega
  · rw [if_neg (Nat.not_le.mpr hlt),
      Int.emod_eq_of_lt (by omega) (by omega)]
    omega

theorem ringSize_lt (h t c : Nat) (hh : h < c) (ht : t < c) :
    ringSize h t c < c := by
  rw [ringSize_eq h t c hh ht]; split <;> omega

theorem ringSize_eq_zero_iff (h t c : Nat) (hh : h < c) (ht : t < c) :
    ringSize h t c = 0 ↔ h = t := by
  rw [ringSize_eq h t c hh ht]; split <;> omega

/-- The producer cursor sits `size` frames past the consumer cursor. -/
theorem tail_eq_head_add_size (h t c : Nat) (hh : h < c) (ht : t < c) :
    t = (h + ringSize h t c) % c := by
  rw [ringSize_eq h t c hh ht]
  rcases le_or_lt h t with hle | hlt
  · simp only [if_pos hle]
    rw [Nat.add_sub_cancel' hle, Nat.mod_eq_of_lt ht]
  · simp only [if_neg (Nat.not_le.mpr hlt)]
    have : h + (c - (h - t)) = t + c := by omega
    rw [this, Nat.add_mod_right, Nat.mod_eq_of_lt (by omega)]

theorem ringSize_advance_tail (h t c a : Nat) (hh : h < c) (ht : t < c)
    (hs : ringSize h t c + a < c) :
    ringSize h ((t + a) % c) c = ringSize h t c + a := by
  have hc : 0 < c := by omega
  have ht' : (t + a) % c < c := Nat.mod_lt _ hc
  rw [ringSize_eq h t c hh ht] at hs ⊢
  rw [ringSize_eq h _ c hh ht']
  rcases Nat.lt_or_ge (t + a) c with hlt | hge
  · rw [Nat.mod_eq_of_lt hlt]
    split at hs <;> split <;> omega
  · have : (t + a) % c = t + a - c := by
      rw [Nat.mod_eq_sub_mod hge, Nat.mod_eq_of_lt (by omega)]
    rw [this]
    split at hs <;> split <;> omega

/-- `ringSize` is determined by any representative size below `c`. -/
theorem ringSize_unique (h t c s : Nat) (hh : h < c) (hs : s < c)
    (he : (h + s) % c = t) : ringSize h t c = s := by
  have ht : t < c := he ▸ Nat.mod_lt _ (by omega)
  rw [ringSize_eq h t c hh ht]
  subst he
  rcases Nat.lt_or_ge (h + s) c with hlt | hge
  · rw [Nat.mod_eq_of_lt hlt]; split <;> omega
  · have hsub : (h + s) % c = h + s - c := by
      rw [Nat.mod_eq_sub_mod hge, Nat.mod_eq_of_lt (by omega)]
    rw [hsub]; split <;> omega

theorem ringSize_advance_head (h t c a : Nat) (hh : h < c) (ht : t < c)
    (hs : a ≤ ringSize h t c) :
    ringSize ((h + a) % c) t c = ringSize h t c - a := by
  have hc : 0 < c := by omega
  have hlt := ringSize_lt h t c hh ht
  refine ringSize_unique _ t c _ (Nat.mod_lt _ hc) (by omega) ?_
  rw [Nat.mod_add_mod, show h + a + (ringSize h t c - a) = h + ringSize h t c by omega]
  exact (tail_eq_head_add_size h t c hh ht).symm

/-- Positions `(base + k) % c` are pairwise distinct for `k < c`. -/
theorem pos_inj {c : Nat} (base : Nat) {k₁ k₂ : Nat} (h₁ : k₁ < c) (h₂ : k₂ < c)
    (he : (base + k₁) % c = (base + k₂) % c) : k₁ = k₂ := by
  have hm : k₁ ≡ k₂ [MOD c] := Nat.ModEq.add_left_cancel' base he
  have h' : k₁ % c = k₂ % c := hm
  rwa [Nat.mod_eq_of_lt h₁, Nat.mod_eq_of_lt h₂] at h'

/-! ### The two-span raw accessors, re-expressed through wrapped positions -/

theorem setRange_in (d : Nat → Nat) (s : Nat) (bs : List Nat) (i : Nat)
    (h1 : s ≤ i) (h2 : i < s + bs.length) :
    setRange d s bs i = bs.getD (i - s) 0 := by
  unfold setRange
  rw [if_pos ⟨h1, h2⟩]

theorem setRange_out (d : Nat → Nat) (s : Nat) (bs : List Nat) (i : Nat)
    (h : i < s ∨ s + bs.length ≤ i) : setRange d s bs i = d i := by
  unfold setRange
  rw [if_neg (by omega)]

/-- Reading `n ≤ c` bytes starting at `h < c` visits positions
`(h + k) % c` in order. -/
theorem readRaw_eq (d : Nat → Nat) (n h c : Nat) (hh : h < c) (hn : n ≤ c) :
    readRaw d n h c = (List.range n).map (fun k => d ((h + k) % c)) := by
  unfold readRaw
  rcases le_or_lt n (c - h) with hle | hlt
  · rw [min_eq_left hle, if_neg (by omega)]
    refine List.map_congr_left fun k hk => ?_
    rw [List.mem_range] at hk
    rw [Nat.mod_eq_of_lt (by omega)]
  · have hfc : min n (c - h) = c - h := min_eq_right (by omega)
    rw [hfc, if_pos (by omega)]
    conv_rhs => rw [show n = (c - h) + (n - (c - h)) by omega]
    rw [List.range_add, List.map_append, List.map_map]
    congr 1
    · refine List.map_congr_left fun k hk => ?_
      rw [List.mem_range] at hk
      rw [Nat.mod_eq_of_lt (by omega)]
    · refine List.map_congr_left fun k hk => ?_
      rw [List.mem_range] at hk
      show d k = d ((h + (c - h + k)) % c)
      rw [show h + (c - h + k) = c + k by omega, Nat.add_mod_left,
        Nat.mod_eq_of_lt (by omega)]

/-- Writing `bs` (with `bs.length ≤ c`) starting at `h < c` stores byte `k`
at position `(h + k) % c`. -/
theorem writeRaw_in (d : Nat → Nat) (bs : List Nat) (h c : Nat) (hh : h < c)
    (hlen : bs.length ≤ c) (k : Nat) (hk : k < bs.length) :
    writeRaw d bs h c ((h + k) % c) = bs.getD k 0 := by
  unfold writeRaw
  set fc := min bs.length (c - h) with hfc
  rcases Nat.lt_or_ge k fc with hkfc | hkfc
  · -- first span: position h + k, untouched by the (possible) second span
    have hpos : (h + k) % c = h + k := Nat.mod_eq_of_lt (by omega)
    have hfirst : setRange d h (bs.take fc) (h + k) = bs.getD k 0 := by
      rw [setRange_in _ _ _ _ (by omega) (by simp only [List.length_take]; omega),
        Nat.add_sub_cancel_left, List.getD_eq_getElem?_getD,
        List.getD_eq_getElem?_getD, List.getElem?_take_of_lt hkfc]
    split
    · rw [hpos, setRange_out, hfirst]
      right
      simp only [List.length_drop]
      omega
    · rw [hpos, hfirst]
  · -- second span: wraps to position k - fc
    have hfc' : fc = c - h := by omega
    have hpos : (h + k) % c = k - fc := by
      rw [show h + k = c + (k - fc) by omega, Nat.add_mod_left,
        Nat.mod_eq_of_lt (by omega)]
    rw [if_pos (by omega), hpos,
      setRange_in _ _ _ _ (by omega) (by simp only [List.length_drop]; omega),
      Nat.sub_zero, List.getD_eq_getElem?_getD, List.getD_eq_getElem?_getD,
      List.getElem?_drop, Nat.add_sub_cancel' hkfc]

/-- Positions not written by `writeRaw` keep their value. -/
theorem writeRaw_out (d : Nat → Nat) (bs : List Nat) (h c : Nat) (hh : h < c)
    (hlen : bs.length ≤ c) (i : Nat) (hi : ∀ k < bs.length, (h + k) % c ≠ i) :
    writeRaw d bs h c i = d i := by
  unfold writeRaw
  set fc := min bs.length (c - h) with hfc
  have hout1 : setRange d h (bs.take fc) i = d i := by
    apply setRange_out
    simp only [List.length_take]
    by_contra hcon
    push_neg at hcon
    have hk : i = h + (i - h) := by omega
    exact hi (i - h) (by omega) (by rw [← hk, Nat.mod_eq_of_lt (by omega)])
  split
  · rw [setRange_out, hout1]
    simp only [List.length_drop]
    by_contra hcon
    push_neg at hcon
    refine hi (fc + i) (by omega) ?_
    rw [show h + (fc + i) = c + i by omega, Nat.add_mod_left,
      Nat.mod_eq_of_lt (by omega)]
  · exact hout1

/-- `map (getD bs · 0) (range bs.length)` reassembles `bs`. -/
theorem map_getD_range (bs : List Nat) :
    (List.range bs.length).map (fun k => bs.getD k 0) = bs := by
  refine List.ext_getElem (by simp) fun i h1 h2 => ?_
  simp only [List.getElem_map, List.getElem_range]
  rw [List.getD_eq_getElem?_getD, List.getElem?_eq_getElem h2]
  rfl

/-! ### The frame-queue abstraction

`Chain d c h t q` says: starting at cursor `h`, the data area `d` of a ring
of capacity `c` holds the length-prefixed frames of the payload queue `q`,
ending exactly at cursor `t`.  `Inv r q` is the full ring invariant tying a
ring state to the abstract queue it encodes. -/

def frameBytes (q : List (List Nat)) : Nat := (q.map (fun b => 4 + b.length)).sum

theorem frameBytes_nil : frameBytes [] = 0 := rfl

theorem frameBytes_cons (b : List Nat) (q : List (List Nat)) :
    frameBytes (b :: q) = 4 + b.length + frameBytes q := by
  simp [frameBytes]

theorem frameBytes_append (q : List (List Nat)) (b : List Nat) :
    frameBytes (q ++ [b]) = frameBytes q + (4 + b.length) := by
  simp [frameBytes]

inductive Chain (d : Nat → Nat) (c : Nat) : Nat → Nat → List (List Nat) → Prop where
  | nil (h : Nat) : Chain d c h h []
  | cons (h t : Nat) (b : List Nat) (q : List (List Nat))
      (hlen : readRaw d 4 h c = le32 b.length)
      (hpayload : readRaw d b.length ((h + 4) % c) c = b)
      (hrest : Chain d c (((h + 4) % c + b.length) % c) t q) :
      Chain d c h t (b :: q)

structure Inv (r : SharedRingBuffer) (q : List (List Nat)) : Prop where
  hhead : r.head < r.cap
  htail : r.tail < r.cap
  hcap5 : 5 ≤ r.cap
  hcap32 : r.cap ≤ 2 ^ 32
  hsize : ringSize r.head r.tail r.cap = frameBytes q
  hchain : Chain r.data r.cap r.head r.tail q

theorem Inv_emptyRing (cap : Nat) (h5 : 5 ≤ cap) (h32 : cap ≤ 2 ^ 32) :
    Inv (emptyRing cap) [] := by
  have hh : (emptyRing cap).head = 0 := rfl
  have ht : (emptyRing cap).tail = 0 := rfl
  have hc : (emptyRing cap).cap = cap := rfl
  refine ⟨by omega, by omega, by omega, by omega, ?_, Chain.nil 0⟩
  rw [hh, ht, hc, frameBytes_nil, ringSize_eq 0 0 cap (by omega) (by omega)]
  simp

theorem mod_add_mod₂ (a b k n : Nat) :
    ((a % n + b) % n + k) % n = (a + (b + k)) % n := by
  rw [Nat.mod_add_mod, Nat.add_assoc, Nat.mod_add_mod]

/-- A chain survives any data change outside its own footprint. -/
theorem Chain.mono {d d' : Nat → Nat} {c h t : Nat} {q : List (List Nat)}
    (hch : Chain d c h t q) :
    0 < c → h < c → frameBytes q ≤ c →
    (∀ k < frameBytes q, d' ((h + k) % c) = d ((h + k) % c)) →
    Chain d' c h t q := by
  induction hch with
  | nil h => intro _ _ _ _; exact Chain.nil h
  | cons h t b q hlen hpayload _hrest ih =>
    intro hc hh hFq hagree
    rw [frameBytes_cons] at hFq
    refine Chain.cons h t b q ?_ ?_
      (ih hc (Nat.mod_lt _ hc) (by omega) ?_)
    · rw [readRaw_eq d' 4 h c hh (by omega), ← hlen,
        readRaw_eq d 4 h c hh (by omega)]
      refine List.map_congr_left fun j hj => ?_
      rw [List.mem_range] at hj
      exact hagree j (by rw [frameBytes_cons]; omega)
    · have hp' : (List.range b.length).map (fun k => d (((h + 4) % c + k) % c)) = b := by
        rw [← readRaw_eq d b.length ((h + 4) % c) c (Nat.mod_lt _ hc) (by omega)]
        exact hpayload
      rw [readRaw_eq d' b.length ((h + 4) % c) c (Nat.mod_lt _ hc) (by omega)]
      refine Eq.trans ?_ hp'
      refine List.map_congr_left fun j hj => ?_
      rw [List.mem_range] at hj
      have e : ((h + 4) % c + j) % c = (h + (4 + j)) % c := by
        rw [Nat.mod_add_mod, Nat.add_assoc]
      rw [e]
      exact hagree (4 + j) (by rw [frameBytes_cons]; omega)
    · intro k hk
      have e : (((h + 4) % c + b.length) % c + k) % c = (h + (4 + (b.length + k))) % c :=
        mod_add_mod₂ (h + 4) b.length k c ▸ by rw [Nat.add_assoc]
      rw [e]
      exact hagree (4 + (b.length + k)) (by rw [frameBytes_cons]; omega)

/-- A fresh frame sitting at the producer cursor extends the chain. -/
theorem Chain.extend {d : Nat → Nat} {c h t : Nat} {q : List (List Nat)}
    (hch : Chain d c h t q) :
    ∀ b : List Nat, readRaw d 4 t c = le32 b.length →
      readRaw d b.length ((t + 4) % c) c = b →
      Chain d c h (((t + 4) % c + b.length) % c) (q ++ [b]) := by
  induction hch with
  | nil h =>
    intro b h1 h2
    exact Chain.cons h _ b [] h1 h2 (Chain.nil _)
  | cons h t b' q' hl hp _hr ih =>
    intro b h1 h2
    exact Chain.cons _ _ b' _ hl hp (ih b h1 h2)

/-! ### Write and read against the invariant -/

/-- A write that does not fit returns 0 and leaves the ring untouched. -/
theorem write_full (r : SharedRingBuffer) (b : List Nat)
    (hfull : r.cap - ringSize r.head r.tail r.cap - 1 < 4 + b.length) :
    r.write b = (0, r) := by
  unfold SharedRingBuffer.write
  rw [if_pos hfull]

/-- A write that fits returns the payload length and appends one frame to
the abstract queue. -/
theorem write_ok {r : SharedRingBuffer} {q : List (List Nat)} (hinv : Inv r q)
    (b : List Nat)
    (hfit : ¬ r.cap - ringSize r.head r.tail r.cap - 1 < 4 + b.length) :
    (r.write b).1 = b.length ∧ Inv (r.write b).2 (q ++ [b]) := by
  obtain ⟨hhead, htail, hcap5, hcap32, hsize, hchain⟩ := hinv
  have hc : 0 < r.cap := by omega
  have hszlt := ringSize_lt r.head r.tail r.cap hhead htail
  have hroom : ringSize r.head r.tail r.cap + (4 + b.length) ≤ r.cap - 1 := by omega
  have hL : b.length ≤ r.cap := by omega
  have ht_eq : r.tail = (r.head + ringSize r.head r.tail r.cap) % r.cap :=
    tail_eq_head_add_size r.head r.tail r.cap hhead htail
  unfold SharedRingBuffer.write
  rw [if_neg hfit]
  refine ⟨rfl, ?_⟩
  set size := ringSize r.head r.tail r.cap with hsz
  set d1 := writeRaw r.data (le32 b.length) r.tail r.cap with hd1
  set tail1 := (r.tail + 4) % r.cap with htail1
  set d2 := writeRaw d1 b tail1 r.cap with hd2
  have htail1lt : tail1 < r.cap := Nat.mod_lt _ hc
  -- positions written by the two raw writes, as offsets from the head
  have hpos1 : ∀ j, (r.tail + j) % r.cap = (r.head + (size + j)) % r.cap := by
    intro j
    rw [ht_eq, Nat.mod_add_mod, Nat.add_assoc]
  have hpos2 : ∀ j, (tail1 + j) % r.cap = (r.head + (size + (4 + j))) % r.cap := by
    intro j
    rw [htail1, Nat.mod_add_mod, Nat.add_assoc, hpos1 (4 + j)]
  -- the old footprint is untouched
  have hagree : ∀ k < frameBytes q,
      d2 ((r.head + k) % r.cap) = r.data ((r.head + k) % r.cap) := by
    intro k hk
    have hk' : k < size := by omega
    have h1 : d1 ((r.head + k) % r.cap) = r.data ((r.head + k) % r.cap) := by
      refine writeRaw_out _ _ _ _ htail (by rw [le32_length]; omega) _ ?_
      intro j hj heq
      rw [le32_length] at hj
      rw [hpos1 j] at heq
      have := pos_inj r.head (by omega) (by omega) heq
      omega
    rw [← h1]
    refine writeRaw_out _ _ _ _ htail1lt hL _ ?_
    intro j hj heq
    rw [hpos2 j] at heq
    have := pos_inj r.head (by omega) (by omega) heq
    omega
  have hchain2 : Chain d2 r.cap r.head r.tail q :=
    hchain.mono hc hhead (by omega) hagree
  -- the new frame is present
  have hlenread : readRaw d2 4 r.tail r.cap = le32 b.length := by
    rw [readRaw_eq d2 4 r.tail r.cap htail (by omega)]
    have : ∀ j < 4, d2 ((r.tail + j) % r.cap) = (le32 b.length).getD j 0 := by
      intro j hj
      have h1 : d1 ((r.tail + j) % r.cap) = (le32 b.length).getD j 0 :=
        writeRaw_in _ _ _ _ htail (by rw [le32_length]; omega) j
          (by rw [le32_length]; omega)
      rw [← h1]
      refine writeRaw_out _ _ _ _ htail1lt hL _ ?_
      intro m hm heq
      rw [hpos2 m, hpos1 j] at heq
      have := pos_inj r.head (by omega) (by omega) heq
      omega
    calc (List.range 4).map (fun k => d2 ((r.tail + k) % r.cap))
        = (List.range 4).map (fun k => (le32 b.length).getD k 0) :=
          List.map_congr_left fun j hj => this j (List.mem_range.mp hj)
      _ = le32 b.length := by rw [← le32_length b.length, map_getD_range]
  have hpayread : readRaw d2 b.length tail1 r.cap = b := by
    rw [readRaw_eq d2 b.length tail1 r.cap htail1lt hL]
    calc (List.range b.length).map (fun k => d2 ((tail1 + k) % r.cap))
        = (List.range b.length).map (fun k => b.getD k 0) :=
          List.map_congr_left fun j hj =>
            writeRaw_in _ _ _ _ htail1lt hL j (List.mem_range.mp hj)
      _ = b := map_getD_range b
  refine ⟨hhead, Nat.mod_lt _ hc, hcap5, hcap32, ?_, ?_⟩
  · show ringSize r.head ((tail1 + b.length) % r.cap) r.cap = frameBytes (q ++ [b])
    rw [htail1, Nat.mod_add_mod,
      show r.tail + 4 + b.length = r.tail + (4 + b.length) by omega,
      ringSize_advance_tail r.head r.tail r.cap (4 + b.length) hhead htail (by omega),
      frameBytes_append]
    omega
  · exact hchain2.extend b hlenread hpayread

/-- Inversion for a nonempty chain. -/
theorem Chain.cons_inv {d : Nat → Nat} {c h t : Nat} {b : List Nat}
    {q : List (List Nat)} (hch : Chain d c h t (b :: q)) :
    readRaw d 4 h c = le32 b.length ∧
      readRaw d b.length ((h + 4) % c) c = b ∧
      Chain d c (((h + 4) % c + b.length) % c) t q := by
  cases hch with
  | cons _ _ _ _ hl hp hr => exact ⟨hl, hp, hr⟩

/-- Reading an empty ring returns `none` and changes nothing. -/
theorem read_nil {r : SharedRingBuffer} (hinv : Inv r []) : r.read = (none, r) := by
  obtain ⟨hhead, htail, _, _, hsize, _⟩ := hinv
  have : r.head = r.tail := by
    rw [frameBytes_nil] at hsize
    exact (ringSize_eq_zero_iff r.head r.tail r.cap hhead htail).mp hsize
  unfold SharedRingBuffer.read
  rw [if_pos this]

/-- Reading a nonempty ring returns the frontmost payload whole and pops it
from the abstract queue. -/
theorem read_cons {r : SharedRingBuffer} {b : List Nat} {q : List (List Nat)}
    (hinv : Inv r (b :: q)) :
    (r.read).1 = some b ∧ Inv (r.read).2 q := by
  obtain ⟨hhead, htail, hcap5, hcap32, hsize, hchain⟩ := hinv
  have hc : 0 < r.cap := by omega
  have hszlt := ringSize_lt r.head r.tail r.cap hhead htail
  rw [frameBytes_cons] at hsize
  have hne : r.head ≠ r.tail := by
    intro he
    rw [(ringSize_eq_zero_iff r.head r.tail r.cap hhead htail).mpr he] at hsize
    omega
  obtain ⟨hlen, hpayload, hrest⟩ := hchain.cons_inv
  have hLlt : b.length < 2 ^ 32 := by omega
  unfold SharedRingBuffer.read
  simp only []
  rw [if_neg hne, hlen, le32Decode_le32 b.length hLlt,
    if_neg (by omega : ¬ ringSize r.head r.tail r.cap < 4),
    if_neg (by omega : ¬ ringSize r.head r.tail r.cap < 4 + b.length), hpayload]
  refine ⟨rfl, Nat.mod_lt _ hc, htail, hcap5, hcap32, ?_, hrest⟩
  show ringSize (((r.head + 4) % r.cap + b.length) % r.cap) r.tail r.cap = frameBytes q
  rw [Nat.mod_add_mod, show r.head + 4 + b.length = r.head + (4 + b.length) by omega,
    ringSize_advance_head r.head r.tail r.cap (4 + b.length) hhead htail (by omega)]
  omega


/-! ### Interleaved traces of writes and reads

`runRing` drives an arbitrary interleaving of `SharedRingBuffer.write` and
`SharedRingBuffer.read` on one ring.  `runSpec` is the ideal bounded FIFO
queue of payloads, written from the spec's words: a write appends one whole
byte string when it fits (`free = C - used - 1 >= 4 + len`), a read removes
and returns exactly the frontmost byte string. -/

inductive RingOp where
  | write (data : List Nat)
  | read

def runRing (r : SharedRingBuffer) :
    List RingOp → List (Nat ⊕ Option (List Nat)) × SharedRingBuffer
  | [] => ([], r)
  | (RingOp.write b) :: ops =>
      let res := r.write b
      let rest := runRing res.2 ops
      (Sum.inl res.1 :: rest.1, rest.2)
  | RingOp.read :: ops =>
      let res := r.read
      let rest := runRing res.2 ops
      (Sum.inr res.1 :: rest.1, rest.2)

def specWrite (cap : Nat) (q : List (List Nat)) (b : List Nat) :
    Nat × List (List Nat) :=
  if cap - frameBytes q - 1 < 4 + b.length then (0, q) else (b.length, q ++ [b])

def specRead (q : List (List Nat)) : Option (List Nat) × List (List Nat) :=
  match q with
  | [] => (none, [])
  | b :: q' => (some b, q')

def runSpec (cap : Nat) (q : List (List Nat)) :
    List RingOp → List (Nat ⊕ Option (List Nat)) × List (List Nat)
  | [] => ([], q)
  | (RingOp.write b) :: ops =>
      let res := specWrite cap q b
      let rest := runSpec cap res.2 ops
      (Sum.inl res.1 :: rest.1, rest.2)
  | RingOp.read :: ops =>
      let res := specRead q
      let rest := runSpec cap res.2 ops
      (Sum.inr res.1 :: rest.1, rest.2)

theorem write_cap (r : SharedRingBuffer) (b : List Nat) :
    (r.write b).2.cap = r.cap := by
  unfold SharedRingBuffer.write
  simp only []
  split <;> rfl

theorem read_cap (r : SharedRingBuffer) : (r.read).2.cap = r.cap := by
  unfold SharedRingBuffer.read
  simp only []
  repeat' split
  all_goals rfl

/-- One ring simulates the ideal FIFO queue step for step: same outputs,
and the invariant is maintained. -/
theorem runRing_simulates {r : SharedRingBuffer} {q : List (List Nat)}
    (hinv : Inv r q) (ops : List RingOp) :
    (runRing r ops).1 = (runSpec r.cap q ops).1 ∧
      Inv (runRing r ops).2 (runSpec r.cap q ops).2 := by
  induction ops generalizing r q with
  | nil => exact ⟨rfl, hinv⟩
  | cons op ops ih =>
    cases op with
    | write b =>
      by_cases hfull : r.cap - ringSize r.head r.tail r.cap - 1 < 4 + b.length
      · have hw := write_full r b hfull
        have h1r : (r.write b).1 = 0 := by rw [hw]
        have h2r : (r.write b).2 = r := by rw [hw]
        have hs : specWrite r.cap q b = (0, q) := by
          unfold specWrite
          rw [if_pos (by rw [← hinv.hsize]; exact hfull)]
        have hrec := ih (show Inv (r.write b).2 q by rw [h2r]; exact hinv)
        rw [write_cap] at hrec
        constructor
        · simp only [runRing, runSpec, hs, h1r, h2r]
          rw [h2r] at hrec
          rw [hrec.1]
        · simp only [runRing, runSpec, hs, h2r]
          rw [h2r] at hrec
          exact hrec.2
      · obtain ⟨h1w, hinv'⟩ := write_ok hinv b hfull
        have hs : specWrite r.cap q b = (b.length, q ++ [b]) := by
          unfold specWrite
          rw [if_neg (by rw [← hinv.hsize]; exact hfull)]
        have hrec := ih hinv'
        rw [write_cap] at hrec
        constructor
        · simp only [runRing, runSpec, hs, h1w]
          rw [hrec.1]
        · simp only [runRing, runSpec, hs]
          exact hrec.2
    | read =>
      cases q with
      | nil =>
        have hr := read_nil hinv
        have h1r : (r.read).1 = none := by rw [hr]
        have h2r : (r.read).2 = r := by rw [hr]
        have hrec := ih (show Inv (r.read).2 [] by rw [h2r]; exact hinv)
        rw [read_cap] at hrec
        constructor
        · simp only [runRing, runSpec, specRead, h1r, h2r]
          rw [h2r] at hrec
          rw [hrec.1]
        · simp only [runRing, runSpec, specRead, h2r]
          rw [h2r] at hrec
          exact hrec.2
      | cons b q' =>
        obtain ⟨h1r, hinv'⟩ := read_cons hinv
        have hrec := ih hinv'
        rw [read_cap] at hrec
        constructor
        · simp only [runRing, runSpec, specRead, h1r]
          rw [hrec.1]
        · simp only [runRing, runSpec, specRead]
          exact hrec.2


/-! ### Claims C1 and C4 -/

/-- Writing a frame that fits records exactly `[le32 length][payload]` at
the producer cursor, advances only `tail`, and returns the payload length. -/
theorem write_writes_frame (r : SharedRingBuffer) (b : List Nat)
    (htail : r.tail < r.cap)
    (hfit : ¬ r.cap - ringSize r.head r.tail r.cap - 1 < 4 + b.length) :
    (r.write b).1 = b.length ∧
    (r.write b).2.head = r.head ∧
    (r.write b).2.tail = ((r.tail + 4) % r.cap + b.length) % r.cap ∧
    readRaw (r.write b).2.data 4 r.tail r.cap = le32 b.length ∧
    readRaw (r.write b).2.data b.length ((r.tail + 4) % r.cap) r.cap = b := by
  have hroom : ringSize r.head r.tail r.cap + (4 + b.length) ≤ r.cap - 1 := by
    rcases Nat.lt_or_ge (ringSize r.head r.tail r.cap) r.cap with _ | hge
    · omega
    · exfalso; apply hfit; omega
  have hc : 0 < r.cap := by omega
  have hL : b.length ≤ r.cap := by omega
  unfold SharedRingBuffer.write
  rw [if_neg hfit]
  set d1 := writeRaw r.data (le32 b.length) r.tail r.cap with hd1
  set tail1 := (r.tail + 4) % r.cap with htail1
  have htail1lt : tail1 < r.cap := Nat.mod_lt _ hc
  have hpos2 : ∀ j, (tail1 + j) % r.cap = (r.tail + (4 + j)) % r.cap := by
    intro j
    rw [htail1, Nat.mod_add_mod, Nat.add_assoc]
  refine ⟨rfl, rfl, rfl, ?_, ?_⟩
  · rw [readRaw_eq _ 4 r.tail r.cap htail (by omega)]
    have hval : ∀ j < 4,
        writeRaw d1 b tail1 r.cap ((r.tail + j) % r.cap) = (le32 b.length).getD j 0 := by
      intro j hj
      have h1 : d1 ((r.tail + j) % r.cap) = (le32 b.length).getD j 0 :=
        writeRaw_in _ _ _ _ htail (by rw [le32_length]; omega) j
          (by rw [le32_length]; omega)
      rw [← h1]
      refine writeRaw_out _ _ _ _ htail1lt hL _ ?_
      intro m hm heq
      rw [hpos2 m] at heq
      have := pos_inj r.tail (by omega) (by omega) heq
      omega
    calc (List.range 4).map (fun k => writeRaw d1 b tail1 r.cap ((r.tail + k) % r.cap))
        = (List.range 4).map (fun k => (le32 b.length).getD k 0) :=
          List.map_congr_left fun j hj => hval j (List.mem_range.mp hj)
      _ = le32 b.length := by rw [← le32_length b.length, map_getD_range]
  · rw [readRaw_eq _ b.length tail1 r.cap htail1lt hL]
    calc (List.range b.length).map (fun k => writeRaw d1 b tail1 r.cap ((tail1 + k) % r.cap))
        = (List.range b.length).map (fun k => b.getD k 0) :=
          List.map_congr_left fun j hj =>
            writeRaw_in _ _ _ _ htail1lt hL j (List.mem_range.mp hj)
      _ = b := map_getD_range b

/-- Claim C4: if the free bytes `capacity - used - 1` are smaller than
`4 + len(b)`, `SharedRingBuffer.write b` returns 0 and leaves the whole
ring state (head, tail and data area) unchanged; otherwise it writes the
frame `[le32 len(b)][b]` at the producer cursor, advances `tail` past it,
leaves `head` alone, and returns `len(b)`. -/
theorem c4_write_backpressure (r : SharedRingBuffer) (b : List Nat)
    (htail : r.tail < r.cap) :
    (r.cap - ringSize r.head r.tail r.cap - 1 < 4 + b.length →
      r.write b = (0, r)) ∧
    (¬ r.cap - ringSize r.head r.tail r.cap - 1 < 4 + b.length →
      (r.write b).1 = b.length ∧
      (r.write b).2.head = r.head ∧
      (r.write b).2.tail = ((r.tail + 4) % r.cap + b.length) % r.cap ∧
      readRaw (r.write b).2.data 4 r.tail r.cap = le32 b.length ∧
      readRaw (r.write b).2.data b.length ((r.tail + 4) % r.cap) r.cap = b) :=
  ⟨write_full r b, write_writes_frame r b htail⟩

theorem c4_write_backpressure_witness :
    ((emptyRing 8).tail < (emptyRing 8).cap ∧ (emptyRing 8).write [1, 2, 3, 4] = (0, emptyRing 8)) ∧
    ((emptyRing 16).tail < (emptyRing 16).cap ∧ ((emptyRing 16).write [1, 2, 3]).1 = 3) := by
  constructor
  · exact ⟨by decide, (c4_write_backpressure (emptyRing 8) [1, 2, 3, 4] (by decide)).1 (by decide)⟩
  · exact ⟨by decide, ((c4_write_backpressure (emptyRing 16) [1, 2, 3] (by decide)).2 (by decide)).1⟩

/-- Claim C1: over any interleaving of `write` and `read` on one ring
(capacity between 5 and 2^32, as initialized by the host), the observable
results coincide with those of the ideal FIFO queue of byte strings:
successful writes enqueue the whole string, reads return exactly the
enqueued strings, whole and in FIFO order — never concatenated, never
split, including frames whose length prefix or payload wraps across the
capacity boundary. -/
theorem c1_ring_fifo_roundtrip (cap : Nat) (ops : List RingOp)
    (hcap5 : 5 ≤ cap) (hcap32 : cap ≤ 2 ^ 32) :
    (runRing (emptyRing cap) ops).1 = (runSpec cap [] ops).1 :=
  (runRing_simulates (Inv_emptyRing cap hcap5 hcap32) ops).1

theorem c1_ring_fifo_roundtrip_witness :
    5 ≤ 12 ∧ 12 ≤ 2 ^ 32 ∧
    (runRing (emptyRing 12)
        [RingOp.write [1, 2, 3], RingOp.read, RingOp.write [4, 5, 6, 7],
          RingOp.read, RingOp.read]).1 =
      (runSpec 12 []
        [RingOp.write [1, 2, 3], RingOp.read, RingOp.write [4, 5, 6, 7],
          RingOp.read, RingOp.read]).1 :=
  ⟨by norm_num, by norm_num,
    c1_ring_fifo_roundtrip 12 _ (by norm_num) (by norm_num)⟩


/-! ## Output sink (`ShmOut.write`, worker.py lines 122-138)

`ShmOut.write` UTF-8-encodes its text and loops: each iteration offers the
whole remaining chunk to `SharedRingBuffer.write` as one frame; on failure
it sleeps 1 ms and retries.  The concurrently draining consumer is modelled
by an oracle `ringAt` giving the ring state the producer observes at the
i-th loop iteration (the producer's own successful write ends the loop at
once, so between iterations only the consumer moves the state).  Real time
(the sleep) is replaced by a fuel bound: `none` means the loop is still
spinning after `fuel` iterations.  The control-socket `DATA\n` wakeup is
always deliverable in this model. -/

def utf8Bytes (text : String) : List Nat :=
  text.toUTF8.data.toList.map (fun b => b.toNat)

def shmOutLoop (ringAt : Nat → SharedRingBuffer) (data : List Nat) :
    Nat → Nat → Nat → Option Nat
  | total, _, 0 => if data.length ≤ total then some total else none
  | total, i, fuel + 1 =>
    if data.length ≤ total then some total
    else
      let n := ((ringAt i).write (data.drop total)).1
      if 0 < n then shmOutLoop ringAt data (total + n) (i + 1) fuel
      else shmOutLoop ringAt data total (i + 1) fuel

def ShmOut.write (ringAt : Nat → SharedRingBuffer) (text : String)
    (fuel : Nat) : Option Nat :=
  if text = "" then some 0
  else shmOutLoop ringAt (utf8Bytes text) 0 0 fuel

theorem utf8Bytes_length (s : String) :
    (utf8Bytes s).length = s.utf8ByteSize := by
  simp only [utf8Bytes, List.length_map, Array.length_toList]
  exact String.size_toUTF8 s

theorem utf8Bytes_pos (s : String) (h : s ≠ "") : 0 < (utf8Bytes s).length := by
  rw [utf8Bytes_length]
  obtain ⟨data⟩ := s
  cases data with
  | nil => exact absurd rfl h
  | cons c cs =>
    have h2 : String.utf8ByteSize ⟨c :: cs⟩ =
        String.utf8ByteSize.go cs + c.utf8Size := rfl
    have := Char.utf8Size_pos c
    omega

theorem write_fst (r : SharedRingBuffer) (b : List Nat) :
    (r.write b).1 = 0 ∨ (r.write b).1 = b.length := by
  unfold SharedRingBuffer.write
  simp only []
  split
  · exact Or.inl rfl
  · exact Or.inr rfl

theorem write_fst_of_fit (r : SharedRingBuffer) (b : List Nat)
    (hfit : ¬ r.cap - ringSize r.head r.tail r.cap - 1 < 4 + b.length) :
    (r.write b).1 = b.length := by
  unfold SharedRingBuffer.write
  simp only []
  rw [if_neg hfit]

/-- A payload longer than `capacity - 5` can never be written. -/
theorem write_too_big (r : SharedRingBuffer) (b : List Nat)
    (hh : r.head < r.cap) (ht : r.tail < r.cap) (hbig : r.cap - 5 < b.length) :
    (r.write b).1 = 0 := by
  have := ringSize_lt r.head r.tail r.cap hh ht
  rw [write_full r b (by omega)]

theorem ringSize_self (h c : Nat) : ringSize h h c = 0 := by
  unfold ringSize
  simp

/-- Oversized chunk: the loop spins forever (no fuel suffices). -/
theorem shmOutLoop_too_big (ringAt : Nat → SharedRingBuffer) (data : List Nat)
    (C : Nat)
    (hwf : ∀ i, (ringAt i).head < C ∧ (ringAt i).tail < C ∧ (ringAt i).cap = C)
    (hbig : C - 5 < data.length) (hpos : 0 < data.length) :
    ∀ fuel i, shmOutLoop ringAt data 0 i fuel = none := by
  intro fuel
  induction fuel with
  | zero =>
    intro i
    unfold shmOutLoop
    rw [if_neg (by omega)]
  | succ fuel ih =>
    intro i
    obtain ⟨hh, ht, hc⟩ := hwf i
    unfold shmOutLoop
    rw [if_neg (by omega), List.drop_zero]
    have h0 : ((ringAt i).write data).1 = 0 :=
      write_too_big _ _ (hc.symm ▸ hh) (hc.symm ▸ ht) (by rw [hc]; omega)
    simp only [h0]
    rw [if_neg (by omega)]
    exact ih (i + 1)

/-- Any value the loop returns is the full chunk length. -/
theorem shmOutLoop_some_eq (ringAt : Nat → SharedRingBuffer) (data : List Nat) :
    ∀ fuel total i n, total ≤ data.length →
      shmOutLoop ringAt data total i fuel = some n → n = data.length := by
  intro fuel
  induction fuel with
  | zero =>
    intro total i n htot h
    unfold shmOutLoop at h
    split at h
    · simp only [Option.some.injEq] at h
      omega
    · exact absurd h (by simp)
  | succ fuel ih =>
    intro total i n htot h
    unfold shmOutLoop at h
    split at h
    · simp only [Option.some.injEq] at h
      omega
    · simp only [] at h
      rcases write_fst (ringAt i) (data.drop total) with h0 | hl
      · rw [h0, if_neg (by omega)] at h
        exact ih total (i + 1) n htot h
      · rw [hl, List.length_drop] at h
        by_cases hpos : 0 < data.length - total
        · rw [if_pos hpos] at h
          exact ih (total + (data.length - total)) (i + 1) n (by omega) h
        · rw [if_neg hpos] at h
          exact ih total (i + 1) n htot h

/-- If the consumer has fully drained the ring by some attempt within the
fuel bound, the loop returns. -/
theorem shmOutLoop_drained (ringAt : Nat → SharedRingBuffer) (data : List Nat)
    (C : Nat)
    (hwf : ∀ i, (ringAt i).head < C ∧ (ringAt i).tail < C ∧ (ringAt i).cap = C)
    (hfit : data.length ≤ C - 5) (hC : 5 ≤ C) :
    ∀ fuel total i, total ≤ data.length →
      (data.length ≤ total ∨
        ∃ j, i ≤ j ∧ j < i + fuel ∧ (ringAt j).head = (ringAt j).tail) →
      shmOutLoop ringAt data total i fuel ≠ none := by
  intro fuel
  induction fuel with
  | zero =>
    intro total i htot hdone
    have hle : data.length ≤ total := by
      rcases hdone with h | ⟨j, h1, h2, _⟩
      · exact h
      · omega
    unfold shmOutLoop
    rw [if_pos hle]
    simp
  | succ fuel ih =>
    intro total i htot hdone
    unfold shmOutLoop
    split
    · simp
    · rename_i hlt
      simp only []
      rcases write_fst (ringAt i) (data.drop total) with h0 | hl
      · -- write failed this round
        rw [h0, if_neg (by omega)]
        refine ih total (i + 1) htot ?_
        rcases hdone with h | ⟨j, hj1, hj2, hjdrain⟩
        · omega
        · rcases Nat.eq_or_lt_of_le hj1 with he | hgt
          · -- the drained attempt is this one: the write cannot have failed
            exfalso
            obtain ⟨hh, ht, hc⟩ := hwf i
            have hz : ringSize (ringAt i).head (ringAt i).tail (ringAt i).cap = 0 := by
              rw [← he] at hjdrain
              rw [hjdrain]
              exact ringSize_self _ _
            have hsucc : ((ringAt i).write (data.drop total)).1 = (data.drop total).length :=
              write_fst_of_fit _ _ (by rw [hz, hc, List.length_drop]; omega)
            rw [h0] at hsucc
            rw [List.length_drop] at hsucc
            omega
          · exact Or.inr ⟨j, by omega, by omega, hjdrain⟩
      · -- write succeeded: the whole remaining chunk went out
        rw [hl, List.length_drop, if_pos (by omega)]
        exact ih (total + (data.length - total)) (i + 1) (by omega) (Or.inl (by omega))

/-- Claim C10: `ShmOut.write` offers the entire UTF-8 encoding of its text
to the ring as one frame per attempt, retrying (with a 1 ms sleep, not
modelled) while the ring reports no space.  For a non-empty text whose
encoding is at most `capacity - 5` bytes it terminates with the encoded
length once the consumer has drained the ring at some attempt within the
fuel bound; any value it ever returns is the full encoded length (never a
partial count); and for an encoding longer than `capacity - 5` bytes no
amount of fuel terminates the retry loop, because the single-frame write
can never succeed. -/
theorem c10_shmout_write (ringAt : Nat → SharedRingBuffer) (text : String)
    (C : Nat)
    (hwf : ∀ i, (ringAt i).head < C ∧ (ringAt i).tail < C ∧ (ringAt i).cap = C)
    (hne : text ≠ "") :
    (C - 5 < (utf8Bytes text).length →
      ∀ fuel, ShmOut.write ringAt text fuel = none) ∧
    ((utf8Bytes text).length ≤ C - 5 → 5 ≤ C →
      ∀ fuel, (∃ j, j < fuel ∧ (ringAt j).head = (ringAt j).tail) →
        ShmOut.write ringAt text fuel = some (utf8Bytes text).length) ∧
    (∀ fuel n, ShmOut.write ringAt text fuel = some n →
      n = (utf8Bytes text).length) := by
  have hpos := utf8Bytes_pos text hne
  refine ⟨?_, ?_, ?_⟩
  · intro hbig fuel
    unfold ShmOut.write
    rw [if_neg hne]
    exact shmOutLoop_too_big ringAt _ C hwf hbig hpos fuel 0
  · intro hfit hC fuel hex
    obtain ⟨j, hj, hdrain⟩ := hex
    unfold ShmOut.write
    rw [if_neg hne]
    have hne' := shmOutLoop_drained ringAt _ C hwf hfit hC fuel 0 0 (by omega)
      (Or.inr ⟨j, by omega, by omega, hdrain⟩)
    rcases hres : shmOutLoop ringAt (utf8Bytes text) 0 0 fuel with _ | n
    · exact absurd hres hne'
    · rw [shmOutLoop_some_eq ringAt _ fuel 0 0 n (by omega) hres]
  · intro fuel n h
    unfold ShmOut.write at h
    rw [if_neg hne] at h
    exact shmOutLoop_some_eq ringAt _ fuel 0 0 n (by omega) h

theorem c10_shmout_write_witness :
    ShmOut.write (fun _ => emptyRing 16) "hi" 1 = some 2 ∧
    ShmOut.write (fun _ => emptyRing 16) "hello world!" 3 = none := by
  constructor
  · have h := (c10_shmout_write (fun _ => emptyRing 16) "hi" 16
      (fun _ => ⟨Nat.succ_pos 15, Nat.succ_pos 15, rfl⟩) (by decide)).2.1
      (by decide) (by decide) 1 ⟨0, by decide, rfl⟩
    rw [h]
    decide
  · exact (c10_shmout_write (fun _ => emptyRing 16) "hello world!" 16
      (fun _ => ⟨Nat.succ_pos 15, Nat.succ_pos 15, rfl⟩) (by decide)).1 (by decide) 3

/-! ## Policy evaluator (worker.py lines 374-610)

Rulesets are parsed JSON dictionaries; here each rule is a record whose
`Option` fields mark keys that may be absent or null (`dict.get` returning
`None`), with `.getD` mirroring `.get(key, default)`.  `ports` holds
`str(rule.get("ports", ""))` — both evaluator branches stringify it the
same way.  The `POLICY_PRECOMPILE_ENABLED` module global becomes the `pre`
parameter of the matchers.  `ipaddress.ip_address` / `ip_network(strict =
False)` are modelled for IPv4 dotted-quad inputs (anything else — e.g.
IPv6 — is treated as unparseable); both evaluator branches share this
model, and `int()` on stripped tokens is `String.toInt?`. -/

structure FsRule where
  action : Option String
  path : Option String
  perms : List String

structure NetRule where
  action : Option String
  proto : Option String
  cidr : Option String
  ports : String

structure ExecRule where
  action : Option String
  path : Option String

structure CompiledFsRule where
  action : String
  path : Option String
  perms_set : List String

structure IPv4Network where
  netaddr : Nat
  prefixlen : Nat

structure CompiledNetRule where
  action : String
  proto : Option String
  network : IPv4Network
  port_ranges : List (Int × Int)

structure CompiledPolicy where
  fs_rules : Option (List CompiledFsRule)
  net_rules : Option (List CompiledNetRule)
  exec_rules : Option (List (String × List String))

structure Policy where
  fs_rules : List FsRule
  net_rules : List NetRule
  exec_rules : List ExecRule
  defaults_fs : Option String
  defaults_net : Option String
  defaults_exec : Option String
  compiled : Option CompiledPolicy

/-- Python truthiness of an optional string: `None` and `""` are falsy. -/
def pyFalsy (s : Option String) : Bool :=
  match s with
  | none => true
  | some v => v = ""

/-- `s.split(sep)` for a one-character separator, on the character list
(`"".split(",") = [""]`, empty groups preserved). -/
def splitChar (sep : Char) : List Char → List (List Char)
  | [] => [[]]
  | c :: rest =>
    match splitChar sep rest with
    | [] => [[]]
    | grp :: grps => if c = sep then [] :: grp :: grps else (c :: grp) :: grps

def pySplit (s : String) (sep : Char) : List String :=
  (splitChar sep s.data).map String.mk

/-- `str.strip()`: whitespace removed from both ends. -/
def pyStrip (s : String) : String :=
  ⟨(((s.data.dropWhile Char.isWhitespace).reverse.dropWhile Char.isWhitespace).reverse)⟩

def parseDigits? (cs : List Char) : Option Nat :=
  if cs ≠ [] ∧ cs.all Char.isDigit then
    some (cs.foldl (fun acc c => acc * 10 + (c.toNat - '0'.toNat)) 0)
  else none

/-- `int(s)` on an already-stripped token: optional sign, then digits. -/
def charsInt? : List Char → Option Int
  | '-' :: rest => (parseDigits? rest).map (fun n => -(n : Int))
  | '+' :: rest => (parseDigits? rest).map (fun n => (n : Int))
  | cs => (parseDigits? cs).map (fun n => (n : Int))

def pyInt? (s : String) : Option Int := charsInt? s.data

/-- One dotted-quad octet: 1-3 digits, no leading zero, at most 255. -/
def parseOctet? (cs : List Char) : Option Nat :=
  if cs.length = 0 ∨ 3 < cs.length then none
  else if ¬ cs.all Char.isDigit then none
  else if 1 < cs.length ∧ cs.headD ' ' = '0' then none
  else match parseDigits? cs with
    | some v => if v ≤ 255 then some v else none
    | none => none

def ipAddrChars? (cs : List Char) : Option Nat :=
  match splitChar '.' cs with
  | [a, b, c, d] =>
    match parseOctet? a, parseOctet? b, parseOctet? c, parseOctet? d with
    | some x, some y, some z, some w => some (((x * 256 + y) * 256 + z) * 256 + w)
    | _, _, _, _ => none
  | _ => none

def ip_address? (s : String) : Option Nat := ipAddrChars? s.data

def parsePrefix? (cs : List Char) : Option Nat :=
  if cs.length = 0 then none
  else if ¬ cs.all Char.isDigit then none
  else if 1 < cs.length ∧ cs.headD ' ' = '0' then none
  else match parseDigits? cs with
    | some v => if v ≤ 32 then some v else none
    | none => none

def maskBits (v pl : Nat) : Nat := v / 2 ^ (32 - pl) * 2 ^ (32 - pl)

/-- `ipaddress.ip_network(s, strict=False)`: host bits are masked away. -/
def ip_network? (s : String) : Option IPv4Network :=
  match splitChar '/' s.data with
  | [a] => (ipAddrChars? a).map (fun v => ⟨v, 32⟩)
  | [a, p] =>
    match ipAddrChars? a, parsePrefix? p with
    | some v, some pl => some ⟨maskBits v pl, pl⟩
    | _, _ => none
  | _ => none

def inNetwork (a : Nat) (n : IPv4Network) : Bool :=
  maskBits a n.prefixlen == n.netaddr

/-- `[p.strip() for p in ports_value.split(",") if p.strip()]`. -/
def portParts (ports_value : String) : List String :=
  ((pySplit ports_value ',').map pyStrip).filter (fun p => p ≠ "")

/-- `parse_port_ranges` (worker.py lines 405-421). -/
def parse_port_ranges (ports_value : String) : List (Int × Int) :=
  (portParts ports_value).filterMap (fun part =>
    if part.data.contains '-' then
      match splitChar '-' part.data with
      | [s, e] =>
        match charsInt? s, charsInt? e with
        | some a, some b => some (a, b)
        | _, _ => none
      | _ => none
    else
      match charsInt? part.data with
      | some v => some (v, v)
      | none => none)

/-- `port_matches` (worker.py lines 558-575). -/
def port_matches (ports_value : String) (port : Int) : Bool :=
  (portParts ports_value).any (fun part =>
    if part.data.contains '-' then
      match splitChar '-' part.data with
      | [s, e] =>
        match charsInt? s, charsInt? e with
        | some a, some b => decide (a ≤ port ∧ port ≤ b)
        | _, _ => false
      | _ => false
    else
      match charsInt? part.data with
      | some v => v == port
      | none => false)

/-- `port_matches_ranges` (worker.py lines 578-582). -/
def port_matches_ranges (ranges : List (Int × Int)) (port : Int) : Bool :=
  ranges.any (fun r => decide (r.1 ≤ port ∧ port ≤ r.2))

/-- `exec_map.setdefault(path, []).append(action)`. -/
def execMapAdd : List (String × List String) → String → String →
    List (String × List String)
  | [], p, a => [(p, [a])]
  | (k, v) :: rest, p, a =>
    if k = p then (k, v ++ [a]) :: rest
    else (k, v) :: execMapAdd rest p a

/-- `exec_map.get(path, [])`. -/
def execMapGet : List (String × List String) → String → List String
  | [], _ => []
  | (k, v) :: rest, p => if k = p then v else execMapGet rest p

def exec_compiled_map (rules : List ExecRule) : List (String × List String) :=
  rules.foldl
    (fun m r =>
      if pyFalsy r.path then m
      else execMapAdd m (r.path.getD "") (r.action.getD "allow"))
    []

def compileFsRule (r : FsRule) : CompiledFsRule :=
  { action := r.action.getD "allow", path := r.path, perms_set := r.perms }

def compileNetRule (r : NetRule) : Option CompiledNetRule :=
  if pyFalsy r.cidr then none
  else match ip_network? (r.cidr.getD "") with
    | none => none
    | some network => some
        { action := r.action.getD "allow", proto := r.proto,
          network := network, port_ranges := parse_port_ranges r.ports }

/-- `precompile_policy` (worker.py lines 424-472): attaches `_compiled`
when at least one section has rules. -/
def precompile_policy (p : Policy) : Policy :=
  let compiledFs : Option (List CompiledFsRule) :=
    if p.fs_rules.isEmpty then none
    else some (p.fs_rules.map compileFsRule)
  let compiledNet : Option (List CompiledNetRule) :=
    if p.net_rules.isEmpty then none
    else some (p.net_rules.filterMap compileNetRule)
  let compiledExec : Option (List (String × List String)) :=
    if p.exec_rules.isEmpty then none
    else some (exec_compiled_map p.exec_rules)
  if compiledFs.isSome ∨ compiledNet.isSome ∨ compiledExec.isSome then
    { p with compiled := some ⟨compiledFs, compiledNet, compiledExec⟩ }
  else p

/-- `resolve_action` (worker.py lines 475-483). -/
def resolve_action (actions : List String) (fallback : String) : String :=
  if actions.contains "deny" then "deny"
  else if actions.contains "warn" then "warn"
  else if actions.contains "allow" then "allow"
  else fallback

/-- `path.startswith(pre)`. -/
def startswith (path pre : String) : Bool :=
  pre.data.isPrefixOf path.data

/-- `rule_path and path.startswith(rule_path) and perm in perms`. -/
def fsRuleMatches (path perm : String) (rulePath : Option String)
    (perms : List String) : Bool :=
  !(pyFalsy rulePath) && startswith path (rulePath.getD "") && perms.contains perm

def fs_matched_actions (p : Policy) (path perm : String) : List String :=
  p.fs_rules.filterMap (fun rule =>
    if fsRuleMatches path perm rule.path rule.perms
    then some (rule.action.getD "allow") else none)

def fs_compiled_actions (rules : List CompiledFsRule) (path perm : String) :
    List String :=
  rules.filterMap (fun rule =>
    if fsRuleMatches path perm rule.path rule.perms_set
    then some rule.action else none)

/-- `match_fs_action` (worker.py lines 486-509). -/
def match_fs_action (pre : Bool) (policy : Option Policy) (path perm : String) :
    String :=
  match policy with
  | none => "allow"
  | some p =>
    let compiled := if pre then p.compiled else none
    let actions :=
      match compiled with
      | some c =>
        match c.fs_rules with
        | some rules => fs_compiled_actions rules path perm
        | none => fs_matched_actions p path perm
      | none => fs_matched_actions p path perm
    resolve_action actions (p.defaults_fs.getD "allow")

/-- One iteration of the non-precompiled NET loop. -/
def netRuleAction (rule : NetRule) (ip : String) (port : Int) (proto : String) :
    Option String :=
  if rule.proto ≠ some proto then none
  else if pyFalsy rule.cidr then none
  else match ip_network? (rule.cidr.getD "") with
    | none => none
    | some net =>
      match ip_address? ip with
      | none => none
      | some addr =>
        if !(inNetwork addr net) then none
        else if !(port_matches rule.ports port) then none
        else some (rule.action.getD "allow")

def net_matched_actions (p : Policy) (ip : String) (port : Int) (proto : String) :
    List String :=
  p.net_rules.filterMap (fun rule => netRuleAction rule ip port proto)

def net_compiled_actions (rules : List CompiledNetRule) (ip : String)
    (port : Int) (proto : String) : List String :=
  match ip_address? ip with
  | none => []
  | some addr =>
    rules.filterMap (fun rule =>
      if rule.proto ≠ some proto then none
      else if !(inNetwork addr rule.network) then none
      else if !(port_matches_ranges rule.port_ranges port) then none
      else some rule.action)

/-- `match_net_action` (worker.py lines 512-555). -/
def match_net_action (pre : Bool) (policy : Option Policy) (ip : String)
    (port : Int) (proto : String) : String :=
  match policy with
  | none => "allow"
  | some p =>
    let compiled := if pre then p.compiled else none
    let actions :=
      match compiled with
      | some c =>
        match c.net_rules with
        | some rules => net_compiled_actions rules ip port proto
        | none => net_matched_actions p ip port proto
      | none => net_matched_actions p ip port proto
    resolve_action actions (p.defaults_net.getD "allow")

def exec_matched_actions (p : Policy) (path : String) : List String :=
  p.exec_rules.filterMap (fun rule =>
    if rule.path = some path then some (rule.action.getD "allow") else none)

/-- `match_exec_action` (worker.py lines 585-602). -/
def match_exec_action (pre : Bool) (policy : Option Policy) (path : String) :
    String :=
  match policy with
  | none => "allow"
  | some p =>
    let compiled := if pre then p.compiled else none
    let actions :=
      match compiled with
      | some c =>
        match c.exec_rules with
        | some m => execMapGet m path
        | none => exec_matched_actions p path
      | none => exec_matched_actions p path
    resolve_action actions (p.defaults_exec.getD "allow")

/-- `mode_to_perm` (worker.py lines 605-609). -/
def mode_to_perm (mode : String) : String :=
  if mode.data.contains 'w' || mode.data.contains 'a' ||
      mode.data.contains '+' || mode.data.contains 'x'
  then "write_file" else "read_file"

/-! ### Claims C2 and C7: resolution precedence and FS matching -/

theorem resolve_action_eq (actions : List String) (fallback : String) :
    resolve_action actions fallback =
      if "deny" ∈ actions then "deny"
      else if "warn" ∈ actions then "warn"
      else if "allow" ∈ actions then "allow"
      else fallback := by
  unfold resolve_action
  simp only [List.contains, List.elem_eq_mem, decide_eq_true_eq]

/-- Claim C2 (on the default, non-precompiled evaluation path): each
matcher collects the actions of exactly the matching rules and resolves
them with strict precedence `deny > warn > allow`; with no matching rule
the section's `defaults` entry is returned, or `"allow"` when absent. -/
theorem c2_resolution (p : Policy) (path perm ip : String) (port : Int)
    (proto epath : String) :
    (match_fs_action false (some p) path perm =
      (if "deny" ∈ fs_matched_actions p path perm then "deny"
       else if "warn" ∈ fs_matched_actions p path perm then "warn"
       else if "allow" ∈ fs_matched_actions p path perm then "allow"
       else p.defaults_fs.getD "allow")) ∧
    ((∀ rule ∈ p.fs_rules, fsRuleMatches path perm rule.path rule.perms = false) →
      match_fs_action false (some p) path perm = p.defaults_fs.getD "allow") ∧
    (match_net_action false (some p) ip port proto =
      (if "deny" ∈ net_matched_actions p ip port proto then "deny"
       else if "warn" ∈ net_matched_actions p ip port proto then "warn"
       else if "allow" ∈ net_matched_actions p ip port proto then "allow"
       else p.defaults_net.getD "allow")) ∧
    ((∀ rule ∈ p.net_rules, netRuleAction rule ip port proto = none) →
      match_net_action false (some p) ip port proto = p.defaults_net.getD "allow") ∧
    (match_exec_action false (some p) epath =
      (if "deny" ∈ exec_matched_actions p epath then "deny"
       else if "warn" ∈ exec_matched_actions p epath then "warn"
       else if "allow" ∈ exec_matched_actions p epath then "allow"
       else p.defaults_exec.getD "allow")) ∧
    ((∀ rule ∈ p.exec_rules, rule.path ≠ some epath) →
      match_exec_action false (some p) epath = p.defaults_exec.getD "allow") := by
  have hfs : match_fs_action false (some p) path perm =
      resolve_action (fs_matched_actions p path perm) (p.defaults_fs.getD "allow") := rfl
  have hnet : match_net_action false (some p) ip port proto =
      resolve_action (net_matched_actions p ip port proto) (p.defaults_net.getD "allow") := rfl
  have hexec : match_exec_action false (some p) epath =
      resolve_action (exec_matched_actions p epath) (p.defaults_exec.getD "allow") := rfl
  refine ⟨hfs.trans (resolve_action_eq ..), ?_, hnet.trans (resolve_action_eq ..),
    ?_, hexec.trans (resolve_action_eq ..), ?_⟩
  · intro hnone
    have hempty : fs_matched_actions p path perm = [] := by
      rw [fs_matched_actions, List.filterMap_eq_nil_iff]
      intro rule hr
      rw [if_neg]
      simp only [hnone rule hr, Bool.false_eq_true, not_false_eq_true]
    rw [hfs, hempty]
    rfl
  · intro hnone
    have hempty : net_matched_actions p ip port proto = [] := by
      rw [net_matched_actions, List.filterMap_eq_nil_iff]
      exact hnone
    rw [hnet, hempty]
    rfl
  · intro hnone
    have hempty : exec_matched_actions p epath = [] := by
      rw [exec_matched_actions, List.filterMap_eq_nil_iff]
      intro rule hr
      rw [if_neg (hnone rule hr)]
    rw [hexec, hempty]
    rfl

theorem c2_resolution_witness :
    match_fs_action false
        (some ⟨[⟨some "deny", some "/etc", ["write_file"]⟩,
                ⟨some "allow", some "/etc", ["write_file"]⟩], [], [],
          some "warn", none, none, none⟩) "/etc/passwd" "write_file" = "deny" ∧
    match_fs_action false
        (some ⟨[⟨some "deny", some "/etc", ["write_file"]⟩], [], [],
          some "warn", none, none, none⟩) "/tmp/x" "read_file" = "warn" := by
  constructor
  · have h := (c2_resolution
      ⟨[⟨some "deny", some "/etc", ["write_file"]⟩,
        ⟨some "allow", some "/etc", ["write_file"]⟩], [], [],
        some "warn", none, none, none⟩ "/etc/passwd" "write_file" "" 0 "" "").1
    rw [h]
    decide
  · have h := (c2_resolution
      ⟨[⟨some "deny", some "/etc", ["write_file"]⟩], [], [],
        some "warn", none, none, none⟩ "/tmp/x" "read_file" "" 0 "" "").2.1
    rw [h (by decide)]
    rfl

/-! ### Claim C7: FS prefix matching -/

def emptyPathFsPolicy : Policy :=
  ⟨[⟨some "deny", some "", ["read_file"]⟩], [], [], none, none, none, none⟩

/-- Claim C7 fails as stated: a rule whose `path` is the empty string would
match every probe under pure prefix semantics (`""` is a prefix of `"/a"`
and the permission is in `perms`), but the evaluator's truthiness guard
`rule_path and ...` skips empty-path rules, so the deny rule has no
effect. -/
theorem c7_counterexample :
    (fsRuleMatches "/a" "read_file" (some "") ["read_file"] ≠
      (startswith "/a" "" && (["read_file"] : List String).contains "read_file")) ∧
    match_fs_action false (some emptyPathFsPolicy) "/a" "read_file" = "allow" := by
  decide

/-- Claim C7 (amended): an FS rule matches iff its `path` key is present
and **non-empty**, the probe path starts with it, and the probe permission
is in its `perms`; in particular `/a` matches a rule with path `/` and not
one with path `/b`, and a rule whose path is missing or the empty string
never matches. -/
theorem c7_fs_prefix_matching :
    (∀ (path perm rp : String) (perms : List String),
      fsRuleMatches path perm (some rp) perms =
        (!(decide (rp = "")) && startswith path rp && perms.contains perm)) ∧
    (∀ (path perm : String) (perms : List String),
      fsRuleMatches path perm none perms = false) ∧
    match_fs_action false
      (some ⟨[⟨some "deny", some "/", ["read_file"]⟩], [], [],
        none, none, none, none⟩) "/a" "read_file" = "deny" ∧
    match_fs_action false
      (some ⟨[⟨some "deny", some "/b", ["read_file"]⟩], [], [],
        none, none, none, none⟩) "/a" "read_file" = "allow" ∧
    match_fs_action false (some emptyPathFsPolicy) "/a" "read_file" = "allow" :=
  ⟨fun _ _ _ _ => rfl, fun _ _ _ => rfl, by decide, by decide, by decide⟩

/-! ### Claim C3: precompiled evaluation vs. plain evaluation -/

theorem any_filterMap {α β : Type} (l : List α) (f : α → Option β) (g : β → Bool) :
    (l.filterMap f).any g = l.any (fun a => ((f a).map g).getD false) := by
  induction l with
  | nil => rfl
  | cons x xs ih =>
    rw [List.filterMap_cons]
    cases hfx : f x with
    | none => simp [List.any_cons, hfx, ih]
    | some y => simp [List.any_cons, hfx, ih]

theorem int_beq_eq_decide (v port : Int) :
    (v == port) = decide (v ≤ port ∧ port ≤ v) := by
  rw [Bool.eq_iff_iff, beq_iff_eq, decide_eq_true_eq]
  omega

/-- `port_matches_ranges ∘ parse_port_ranges` agrees with `port_matches`. -/
theorem port_matches_ranges_parse (s : String) (port : Int) :
    port_matches_ranges (parse_port_ranges s) port = port_matches s port := by
  unfold port_matches_ranges parse_port_ranges port_matches
  rw [any_filterMap]
  refine congrArg _ (funext fun part => ?_)
  by_cases hd : part.data.contains '-'
  · rw [if_pos hd, if_pos hd]
    rcases hsp : splitChar '-' part.data with _ | ⟨s1, _ | ⟨e1, _ | ⟨r1, rest⟩⟩⟩ <;>
      simp only [hsp]
    · rfl
    · rfl
    · rcases h1 : charsInt? s1 with _ | a <;> rcases h2 : charsInt? e1 with _ | b <;>
        simp [h1, h2]
    · rfl
  · rw [if_neg hd, if_neg hd]
    rcases h1 : charsInt? part.data with _ | v <;> simp [h1, int_beq_eq_decide]

theorem fs_actions_equiv (p : Policy) (path perm : String) :
    fs_compiled_actions (p.fs_rules.map compileFsRule) path perm =
      fs_matched_actions p path perm := by
  unfold fs_compiled_actions fs_matched_actions
  rw [List.filterMap_map]
  rfl

theorem net_rule_equiv (r : NetRule) (ip : String) (addr : Nat)
    (hip : ip_address? ip = some addr) (port : Int) (proto : String) :
    ((compileNetRule r).bind (fun rule =>
      if rule.proto ≠ some proto then none
      else if !(inNetwork addr rule.network) then none
      else if !(port_matches_ranges rule.port_ranges port) then none
      else some rule.action)) = netRuleAction r ip port proto := by
  unfold compileNetRule netRuleAction
  by_cases hf : pyFalsy r.cidr
  · simp [hf]
  · cases hn : ip_network? (r.cidr.getD "") with
    | none => simp [hf, hn]
    | some net => simp [hf, hn, hip, port_matches_ranges_parse]

theorem net_actions_equiv (p : Policy) (ip : String) (port : Int) (proto : String) :
    net_compiled_actions (p.net_rules.filterMap compileNetRule) ip port proto =
      net_matched_actions p ip port proto := by
  unfold net_compiled_actions net_matched_actions
  cases hip : ip_address? ip with
  | none =>
    symm
    rw [List.filterMap_eq_nil_iff]
    intro r _
    unfold netRuleAction
    split
    · rfl
    · split
      · rfl
      · split
        · rfl
        · simp [hip]
  | some addr =>
    show List.filterMap
        (fun rule =>
          if rule.proto ≠ some proto then none
          else if !(inNetwork addr rule.network) then none
          else if !(port_matches_ranges rule.port_ranges port) then none
          else some rule.action)
        (List.filterMap compileNetRule p.net_rules) =
      List.filterMap (fun rule => netRuleAction rule ip port proto) p.net_rules
    rw [List.filterMap_filterMap]
    exact congrArg (List.filterMap · p.net_rules)
      (funext fun r => net_rule_equiv r ip addr hip port proto)

theorem execMapGet_add (m : List (String × List String)) (p a k : String) :
    execMapGet (execMapAdd m p a) k =
      if p = k then execMapGet m k ++ [a] else execMapGet m k := by
  induction m with
  | nil => by_cases h : p = k <;> simp [execMapAdd, execMapGet, h]
  | cons kv rest ih =>
    obtain ⟨k', v'⟩ := kv
    by_cases h1 : k' = p
    · subst h1
      by_cases h2 : k' = k <;> simp [execMapAdd, execMapGet, h2]
    · by_cases h2 : k' = k
      · subst h2
        have hpk : ¬ p = k' := fun hh => h1 hh.symm
        simp [execMapAdd, execMapGet, h1, hpk]
      · simp [execMapAdd, execMapGet, h1, h2, ih]

theorem filterMap_congr_mem {α β : Type} {l : List α} {f g : α → Option β}
    (h : ∀ a ∈ l, f a = g a) : l.filterMap f = l.filterMap g := by
  induction l with
  | nil => rfl
  | cons x xs ih =>
    rw [List.filterMap_cons, List.filterMap_cons, h x (by simp),
      ih (fun a ha => h a (by simp [ha]))]

theorem exec_map_collect (rules : List ExecRule) (k : String) :
    ∀ m, execMapGet (rules.foldl (fun m r =>
        if pyFalsy r.path then m
        else execMapAdd m (r.path.getD "") (r.action.getD "allow")) m) k =
      execMapGet m k ++ rules.filterMap (fun r =>
        if pyFalsy r.path = false ∧ r.path.getD "" = k
        then some (r.action.getD "allow") else none) := by
  induction rules with
  | nil => intro m; simp
  | cons r rest ih =>
    intro m
    rw [List.foldl_cons, List.filterMap_cons]
    by_cases hf : pyFalsy r.path
    · rw [if_pos hf, if_neg (by simp [hf]), ih m]
    · rw [if_neg hf, ih (execMapAdd m (r.path.getD "") (r.action.getD "allow")),
        execMapGet_add]
      by_cases hk : r.path.getD "" = k
      · rw [if_pos hk, if_pos ⟨by simp [hf], hk⟩]
        simp
      · rw [if_neg hk, if_neg (by simp [hk])]

theorem exec_actions_equiv (p : Policy) (epath : String)
    (h : epath ≠ "" ∨ ∀ r ∈ p.exec_rules, r.path ≠ some "") :
    execMapGet (exec_compiled_map p.exec_rules) epath =
      exec_matched_actions p epath := by
  unfold exec_compiled_map exec_matched_actions
  rw [exec_map_collect p.exec_rules epath []]
  rw [show execMapGet [] epath = [] from rfl, List.nil_append]
  refine filterMap_congr_mem fun r hr => ?_
  cases hp : r.path with
  | none => simp [pyFalsy]
  | some sp =>
    by_cases hse : sp = ""
    · subst hse
      rw [if_neg (by simp [pyFalsy])]
      rcases h with he | hall
      · rw [if_neg (by simp; intro hh; exact he hh.symm)]
      · exact absurd hp (hall r hr)
    · by_cases hsp : sp = epath
      · rw [if_pos ⟨by simp [pyFalsy, hse], by simpa using hsp⟩, if_pos (by simp [hsp])]
      · rw [if_neg (by simp [hsp]), if_neg (by simp [hsp])]

theorem match_fs_action_some (pre : Bool) (p : Policy) (path perm : String) :
    match_fs_action pre (some p) path perm =
      resolve_action
        (match (if pre then p.compiled else none) with
          | some c =>
            match c.fs_rules with
            | some rules => fs_compiled_actions rules path perm
            | none => fs_matched_actions p path perm
          | none => fs_matched_actions p path perm)
        (p.defaults_fs.getD "allow") := rfl

theorem match_net_action_some (pre : Bool) (p : Policy) (ip : String)
    (port : Int) (proto : String) :
    match_net_action pre (some p) ip port proto =
      resolve_action
        (match (if pre then p.compiled else none) with
          | some c =>
            match c.net_rules with
            | some rules => net_compiled_actions rules ip port proto
            | none => net_matched_actions p ip port proto
          | none => net_matched_actions p ip port proto)
        (p.defaults_net.getD "allow") := rfl

theorem match_exec_action_some (pre : Bool) (p : Policy) (epath : String) :
    match_exec_action pre (some p) epath =
      resolve_action
        (match (if pre then p.compiled else none) with
          | some c =>
            match c.exec_rules with
            | some m => execMapGet m epath
            | none => exec_matched_actions p epath
          | none => exec_matched_actions p epath)
        (p.defaults_exec.getD "allow") := rfl

theorem precompile_policy_eq (p : Policy) :
    precompile_policy p = p ∨
    precompile_policy p =
      { p with compiled := some {
          fs_rules := if p.fs_rules.isEmpty then none
            else some (p.fs_rules.map compileFsRule),
          net_rules := if p.net_rules.isEmpty then none
            else some (p.net_rules.filterMap compileNetRule),
          exec_rules := if p.exec_rules.isEmpty then none
            else some (exec_compiled_map p.exec_rules) } } := by
  unfold precompile_policy
  simp only []
  by_cases h1 : p.fs_rules.isEmpty <;> by_cases h2 : p.net_rules.isEmpty <;>
    by_cases h3 : p.exec_rules.isEmpty <;> simp [h1, h2, h3]

/-- The exec ruleset exposing the divergence: one rule whose `path` is the
empty string. -/
def emptyPathExecPolicy : Policy :=
  ⟨[], [], [⟨some "deny", some ""⟩], none, none, none, none⟩

/-- Claim C3 fails as stated: for an exec rule with `path = ""` and the
exec probe path `""` (reachable, e.g. `subprocess.run("")`), the plain
branch matches the rule (`"" == ""`) and denies, while `precompile_policy`
drops falsy paths from the exec hash, so the compiled branch falls back to
the default `allow`. -/
theorem c3_counterexample :
    match_exec_action true (some (precompile_policy emptyPathExecPolicy)) "" = "allow" ∧
    match_exec_action false (some emptyPathExecPolicy) "" = "deny" ∧
    match_exec_action true (some (precompile_policy emptyPathExecPolicy)) "" ≠
      match_exec_action false (some emptyPathExecPolicy) "" := by
  refine ⟨by decide, by decide, by decide⟩

/-- Claim C3 (amended): evaluating through `precompile_policy` and the
compiled branches returns the same action as the non-precompiled branches
for every FS and NET probe, and for every EXEC probe except the corner the
counterexample exhibits: it suffices that the exec probe path is non-empty
or that no exec rule carries an empty-string path. -/
theorem c3_precompile_equiv (p : Policy) (hc : p.compiled = none)
    (path perm ip : String) (port : Int) (proto epath : String)
    (hexec : epath ≠ "" ∨ ∀ r ∈ p.exec_rules, r.path ≠ some "") :
    match_fs_action true (some (precompile_policy p)) path perm =
      match_fs_action false (some p) path perm ∧
    match_net_action true (some (precompile_policy p)) ip port proto =
      match_net_action false (some p) ip port proto ∧
    match_exec_action true (some (precompile_policy p)) epath =
      match_exec_action false (some p) epath := by
  rcases precompile_policy_eq p with he | he
  · rw [he]
    refine ⟨?_, ?_, ?_⟩
    · rw [match_fs_action_some, match_fs_action_some, hc]
      rfl
    · rw [match_net_action_some, match_net_action_some, hc]
      rfl
    · rw [match_exec_action_some, match_exec_action_some, hc]
      rfl
  · rw [he]
    refine ⟨?_, ?_, ?_⟩
    · by_cases hfs : p.fs_rules.isEmpty
      · rw [if_pos hfs]
        rfl
      · rw [if_neg hfs]
        show resolve_action (fs_compiled_actions (p.fs_rules.map compileFsRule) path perm)
            (p.defaults_fs.getD "allow") =
          resolve_action (fs_matched_actions p path perm) (p.defaults_fs.getD "allow")
        rw [fs_actions_equiv]
    · by_cases hnet : p.net_rules.isEmpty
      · rw [if_pos hnet]
        rfl
      · rw [if_neg hnet]
        show resolve_action
            (net_compiled_actions (p.net_rules.filterMap compileNetRule) ip port proto)
            (p.defaults_net.getD "allow") =
          resolve_action (net_matched_actions p ip port proto) (p.defaults_net.getD "allow")
        rw [net_actions_equiv]
    · by_cases hex : p.exec_rules.isEmpty
      · rw [if_pos hex]
        rfl
      · rw [if_neg hex]
        show resolve_action (execMapGet (exec_compiled_map p.exec_rules) epath)
            (p.defaults_exec.getD "allow") =
          resolve_action (exec_matched_actions p epath) (p.defaults_exec.getD "allow")
        rw [exec_actions_equiv p epath hexec]

theorem c3_precompile_equiv_witness :
    match_exec_action true
        (some (precompile_policy
          ⟨[⟨some "deny", some "/etc", ["write_file"]⟩],
           [⟨some "deny", some "tcp", some "10.0.0.0/8", "80"⟩],
           [⟨some "deny", some "/bin/sh"⟩], none, none, none, none⟩)) "/bin/sh" =
      match_exec_action false
        (some ⟨[⟨some "deny", some "/etc", ["write_file"]⟩],
           [⟨some "deny", some "tcp", some "10.0.0.0/8", "80"⟩],
           [⟨some "deny", some "/bin/sh"⟩], none, none, none, none⟩) "/bin/sh" :=
  (c3_precompile_equiv
    ⟨[⟨some "deny", some "/etc", ["write_file"]⟩],
     [⟨some "deny", some "tcp", some "10.0.0.0/8", "80"⟩],
     [⟨some "deny", some "/bin/sh"⟩], none, none, none, none⟩
    rfl "/etc/x" "write_file" "10.1.2.3" 80 "tcp" "/bin/sh"
    (Or.inl (by decide))).2.2

/-! ## Interception hooks (worker.py lines 612-673)

Each guarded wrapper becomes a function from its decision inputs to the
observable outcome.  `os.path.abspath` depends on the working directory, so
it is an uninterpreted parameter `abspath`, and `POLICY_PATH` is a
parameter.  `GuardResult.bypass` is the self-exemption branch calling
`ORIGINAL_OPEN` directly; `denied msg` models `raise PermissionError(msg)`
— a recoverable exception the executed code may catch; `warned audit`
models printing the audit line and then performing the original call;
`proceeded` is the plain original call.  `load_active_policy()` is invoked
only on the non-bypass branch, which the theorems capture by quantifying
the result over every policy. -/

inductive GuardResult where
  | bypass
  | denied (msg : String)
  | warned (audit : String)
  | proceeded
  deriving DecidableEq

/-- `guarded_open` (worker.py lines 618-629). -/
def guarded_open (abspath : String → String) (policyPath : String)
    (pre : Bool) (policy : Option Policy) (path mode : String) : GuardResult :=
  if abspath path = abspath policyPath then GuardResult.bypass
  else
    let perm := mode_to_perm mode
    let action := match_fs_action pre policy path perm
    if action = "deny" then GuardResult.denied "policy denied"
    else if action = "warn" then GuardResult.warned ("[Audit] warn fs " ++ path)
    else GuardResult.proceeded

/-- `guarded_listdir` (worker.py lines 631-639). -/
def guarded_listdir (pre : Bool) (policy : Option Policy) (path : String) :
    GuardResult :=
  let action := match_fs_action pre policy path "read_dir"
  if action = "deny" then GuardResult.denied "policy denied"
  else if action = "warn" then GuardResult.warned ("[Audit] warn fs " ++ path)
  else GuardResult.proceeded

/-- `cmd[0] if isinstance(cmd, (list, tuple)) and cmd else
str(cmd).split(" ")[0]`; `str([])` is `"[]"`. -/
def runCmdPath : List String ⊕ String → String
  | Sum.inl (c :: _) => c
  | Sum.inl [] => "[]"
  | Sum.inr s => (pySplit s ' ').headD ""

/-- `guarded_run` (worker.py lines 641-654). -/
def guarded_run (pre : Bool) (policy : Option Policy)
    (cmd : List String ⊕ String) : GuardResult :=
  let path := runCmdPath cmd
  let action := match_exec_action pre policy path
  if action = "deny" then GuardResult.denied "policy denied"
  else if action = "warn" then GuardResult.warned ("[Audit] warn exec " ++ path)
  else GuardResult.proceeded

/-- `guarded_create_connection` (worker.py lines 656-665). -/
def guarded_create_connection (pre : Bool) (policy : Option Policy)
    (host : String) (port : Int) : GuardResult :=
  let action := match_net_action pre policy host port "tcp"
  if action = "deny" then GuardResult.denied "policy denied"
  else if action = "warn" then
    GuardResult.warned ("[Audit] warn net tcp " ++ host ++ ":" ++ toString port)
  else GuardResult.proceeded

/-! ### Claim C6: policy self-exemption -/

/-- Claim C6: a file open whose absolute path equals the absolute path of
the active policy document bypasses interception entirely — the outcome is
`bypass` (a direct `ORIGINAL_OPEN`) for **every** policy, even one whose
FS rules would deny the path, so no policy is loaded and no rule matched;
for any other path the outcome is exactly the policy-evaluated one. -/
theorem c6_policy_self_exemption (abspath : String → String)
    (policyPath : String) (pre : Bool) (path mode : String) :
    (abspath path = abspath policyPath →
      ∀ policy : Option Policy,
        guarded_open abspath policyPath pre policy path mode = GuardResult.bypass) ∧
    (abspath path ≠ abspath policyPath →
      ∀ policy : Option Policy,
        guarded_open abspath policyPath pre policy path mode =
          (let action := match_fs_action pre policy path (mode_to_perm mode)
           if action = "deny" then GuardResult.denied "policy denied"
           else if action = "warn" then GuardResult.warned ("[Audit] warn fs " ++ path)
           else GuardResult.proceeded)) := by
  constructor
  · intro h policy
    unfold guarded_open
    rw [if_pos h]
  · intro h policy
    unfold guarded_open
    rw [if_neg h]

/-- A ruleset denying every read under `/`. -/
def denyAllReadPolicy : Policy :=
  ⟨[⟨some "deny", some "/", ["read_file", "write_file", "read_dir"]⟩],
    [], [], none, none, none, none⟩

theorem c6_policy_self_exemption_witness :
    guarded_open id "/pol" false (some denyAllReadPolicy) "/pol" "r" =
      GuardResult.bypass ∧
    guarded_open id "/pol" false (some denyAllReadPolicy) "/etc/x" "r" =
      GuardResult.denied "policy denied" := by
  constructor
  · exact (c6_policy_self_exemption id "/pol" false "/pol" "r").1 rfl
      (some denyAllReadPolicy)
  · have h := (c6_policy_self_exemption id "/pol" false "/etc/x" "r").2
      (by decide) (some denyAllReadPolicy)
    rw [h]
    decide

/-! ### Claim C8: denial semantics -/

def denyShPolicy : Policy :=
  ⟨[], [], [⟨some "deny", some "/bin/sh"⟩], none, none, none, none⟩

def denyTenNetPolicy : Policy :=
  ⟨[], [⟨some "deny", some "tcp", some "10.0.0.0/8", "80"⟩], [],
    none, none, none, none⟩

/-- Claim C8 fails as stated: a denied operation does raise a recoverable
`PermissionError`, but its message is the constant `"policy denied"` — it
contains neither the operation kind nor the offending path or address. -/
theorem c8_counterexample :
    guarded_open id "/pol" false (some denyAllReadPolicy) "/etc/x" "r" =
      GuardResult.denied "policy denied" ∧
    guarded_run false (some denyShPolicy) (Sum.inl ["/bin/sh"]) =
      GuardResult.denied "policy denied" ∧
    guarded_create_connection false (some denyTenNetPolicy) "10.0.0.5" 80 =
      GuardResult.denied "policy denied" ∧
    ¬ ("/etc/x".data <:+: "policy denied".data) ∧
    ¬ ("/bin/sh".data <:+: "policy denied".data) ∧
    ¬ ("10.0.0.5".data <:+: "policy denied".data) ∧
    ¬ ("open".data <:+: "policy denied".data) := by
  decide

/-- Claim C8 (amended): whenever a guarded operation is denied by policy it
raises a `PermissionError` — recoverable, the executed code may catch it
and continue — whose message is exactly the fixed string
`"policy denied"`, with no operation kind and no path or address in it;
conversely a `deny` verdict (outside the self-exemption) always produces
exactly that failure.  (Operation and path appear only in `warn`-level
audit lines.) -/
theorem c8_denial_message (abspath : String → String) (policyPath : String)
    (pre : Bool) (policy : Option Policy) (path mode ldpath : String)
    (cmd : List String ⊕ String) (host : String) (port : Int) :
    (∀ m, guarded_open abspath policyPath pre policy path mode =
      GuardResult.denied m → m = "policy denied") ∧
    (∀ m, guarded_listdir pre policy ldpath = GuardResult.denied m →
      m = "policy denied") ∧
    (∀ m, guarded_run pre policy cmd = GuardResult.denied m →
      m = "policy denied") ∧
    (∀ m, guarded_create_connection pre policy host port = GuardResult.denied m →
      m = "policy denied") ∧
    (abspath path ≠ abspath policyPath →
      match_fs_action pre policy path (mode_to_perm mode) = "deny" →
      guarded_open abspath policyPath pre policy path mode =
        GuardResult.denied "policy denied") ∧
    (match_fs_action pre policy ldpath "read_dir" = "deny" →
      guarded_listdir pre policy ldpath = GuardResult.denied "policy denied") ∧
    (match_exec_action pre policy (runCmdPath cmd) = "deny" →
      guarded_run pre policy cmd = GuardResult.denied "policy denied") ∧
    (match_net_action pre policy host port "tcp" = "deny" →
      guarded_create_connection pre policy host port =
        GuardResult.denied "policy denied") := by
  refine ⟨?_, ?_, ?_, ?_, ?_, ?_, ?_, ?_⟩
  · intro m h
    unfold guarded_open at h
    simp only [] at h
    split at h
    · exact absurd h (by simp)
    · split at h
      · injection h with h1
        exact h1.symm
      · split at h
        · exact absurd h (by simp)
        · exact absurd h (by simp)
  · intro m h
    unfold guarded_listdir at h
    simp only [] at h
    split at h
    · injection h with h1
      exact h1.symm
    · split at h
      · exact absurd h (by simp)
      · exact absurd h (by simp)
  · intro m h
    unfold guarded_run at h
    simp only [] at h
    split at h
    · injection h with h1
      exact h1.symm
    · split at h
      · exact absurd h (by simp)
      · exact absurd h (by simp)
  · intro m h
    unfold guarded_create_connection at h
    simp only [] at h
    split at h
    · injection h with h1
      exact h1.symm
    · split at h
      · exact absurd h (by simp)
      · exact absurd h (by simp)
  · intro hne hdeny
    unfold guarded_open
    rw [if_neg hne]
    simp only [hdeny]
    rw [if_pos trivial]
  · intro hdeny
    unfold guarded_listdir
    simp only [hdeny]
    rw [if_pos trivial]
  · intro hdeny
    unfold guarded_run
    simp only [hdeny]
    rw [if_pos trivial]
  · intro hdeny
    unfold guarded_create_connection
    simp only [hdeny]
    rw [if_pos trivial]

theorem c8_denial_message_witness :
    guarded_listdir false (some denyAllReadPolicy) "/etc" =
      GuardResult.denied "policy denied" ∧
    guarded_run false (some denyShPolicy) (Sum.inr "/bin/sh -c ls") =
      GuardResult.denied "policy denied" := by
  constructor
  · exact (c8_denial_message id "/pol" false (some denyAllReadPolicy)
      "/x" "r" "/etc" (Sum.inl []) "h" 0).2.2.2.2.2.1 (by decide)
  · exact (c8_denial_message id "/pol" false (some denyShPolicy)
      "/x" "r" "/etc" (Sum.inr "/bin/sh -c ls") "h" 0).2.2.2.2.2.2.1 (by decide)

/-! ### Claim C9: load failures fail open -/

/-- Outcome of reading the policy file at `POLICY_PATH`. -/
inductive PolicyFileRead where
  | missing
  | unreadable
  | invalidJson
  | parsed (p : Policy)

/-- `load_active_policy` (worker.py lines 374-402) with the mtime cache
disabled (the default): `FileNotFoundError` returns `None`, and the blanket
`except Exception` turns an unreadable file or invalid JSON into `None` as
well; a parsed document is precompiled when the flag is set. -/
def load_active_policy (pre : Bool) : PolicyFileRead → Option Policy
  | PolicyFileRead.missing => none
  | PolicyFileRead.unreadable => none
  | PolicyFileRead.invalidJson => none
  | PolicyFileRead.parsed p => some (if pre then precompile_policy p else p)

def emptyPolicy : Policy := ⟨[], [], [], none, none, none, none⟩

/-- Claim C9: a missing, unreadable, or invalid policy file loads as
`None`; all three matchers return `"allow"` on a `None` (or empty) policy;
consequently every guarded operation proceeds unrestricted (the open is a
bypass only for the policy file itself) — the sandbox fails open. -/
theorem c9_fail_open (pre : Bool) (path perm ip : String) (port : Int)
    (proto epath mode : String) (cmd : List String ⊕ String) :
    load_active_policy pre PolicyFileRead.missing = none ∧
    load_active_policy pre PolicyFileRead.unreadable = none ∧
    load_active_policy pre PolicyFileRead.invalidJson = none ∧
    match_fs_action pre none path perm = "allow" ∧
    match_net_action pre none ip port proto = "allow" ∧
    match_exec_action pre none epath = "allow" ∧
    match_fs_action pre (some emptyPolicy) path perm = "allow" ∧
    match_net_action pre (some emptyPolicy) ip port proto = "allow" ∧
    match_exec_action pre (some emptyPolicy) epath = "allow" ∧
    (∀ (abspath : String → String) (policyPath : String),
      guarded_open abspath policyPath pre none path mode = GuardResult.bypass ∨
      guarded_open abspath policyPath pre none path mode = GuardResult.proceeded) ∧
    guarded_listdir pre none path = GuardResult.proceeded ∧
    guarded_run pre none cmd = GuardResult.proceeded ∧
    guarded_create_connection pre none ip port = GuardResult.proceeded := by
  refine ⟨rfl, rfl, rfl, rfl, rfl, rfl, ?_, ?_, ?_, ?_, rfl, rfl, rfl⟩
  · cases pre <;> rfl
  · cases pre <;> rfl
  · cases pre <;> rfl
  · intro abspath policyPath
    unfold guarded_open
    by_cases h : abspath path = abspath policyPath
    · left
      rw [if_pos h]
    · right
      rw [if_neg h]
      rfl

theorem c9_fail_open_witness :
    match_fs_action false none "/etc/shadow" "write_file" = "allow" ∧
    guarded_create_connection false none "169.254.169.254" 80 =
      GuardResult.proceeded ∧
    (guarded_open id "/pol" false none "/etc/shadow" "w" = GuardResult.bypass ∨
      guarded_open id "/pol" false none "/etc/shadow" "w" = GuardResult.proceeded) := by
  have h := c9_fail_open false "/etc/shadow" "write_file" "169.254.169.254" 80
    "tcp" "/bin/sh" "w" (Sum.inl ["/bin/sh"])
  exact ⟨h.2.2.2.1, h.2.2.2.2.2.2.2.2.2.2.2.2, h.2.2.2.2.2.2.2.2.2.1 id "/pol"⟩

/-! ## Executor loop (worker.py lines 750-796) and Claim C5

One poll of the executor loop performs `msg = bun2py.read()`; a `None`
sleeps and retries, and a frame is decoded as UTF-8 **in its entirety**
(`bytes(msg).decode("utf-8")`) and submitted to `eval`/`exec`.
`executor_submission` is the byte payload the loop hands to the
decode-and-evaluate stage. -/

def executor_poll (bun2py : SharedRingBuffer) :
    Option (List Nat) × SharedRingBuffer :=
  bun2py.read

def executor_submission (msg : List Nat) : Option (List Nat) := some msg

/-- Modelled from the spec (§3, §4.5): under the framed transport a frame
payload carries an envelope `[u8 type][u32 request_id][body]`, the executor
evaluates only the bodies of `CODE = 0x20` envelopes, and discards other
frames.  worker.py contains no such envelope handling; this definition
exists only to compare the spec's words with the source behavior. -/
def executor_submission_spec (msg : List Nat) : Option (List Nat) :=
  if 5 ≤ msg.length ∧ msg.headD 0 = 0x20 then some (msg.drop 5) else none

/-- Claim C5 fails as stated: a frame whose first byte is `0x00` (a
`STDOUT`-typed envelope under the spec's wire format) is not discarded —
the loop submits the entire frame, first byte included, for evaluation as
source text. -/
theorem c5_counterexample :
    executor_submission [0x00, 0, 0, 0, 0, 65] = some [0x00, 0, 0, 0, 0, 65] ∧
    executor_submission_spec [0x00, 0, 0, 0, 0, 65] = none ∧
    executor_submission [0x00, 0, 0, 0, 0, 65] ≠
      executor_submission_spec [0x00, 0, 0, 0, 0, 65] := by
  decide

/-- Claim C5 (amended): the executor loop parses no envelope: every frame
read from ring A is handed to the UTF-8 decode + eval stage whole — the
frontmost pending frame is returned intact by the poll and submitted
unchanged, whatever its first byte — and no frame is ever discarded by
type. -/
theorem c5_executor_no_envelope (r : SharedRingBuffer) (b : List Nat)
    (q : List (List Nat)) (hinv : Inv r (b :: q)) :
    (executor_poll r).1 = some b ∧
    executor_submission b = some b ∧
    Inv (executor_poll r).2 q :=
  ⟨(read_cons hinv).1, rfl, (read_cons hinv).2⟩

theorem c5_executor_no_envelope_witness :
    (executor_poll (((emptyRing 16).write [0x00, 0, 0, 0, 0, 65]).2)).1 =
      some [0x00, 0, 0, 0, 0, 65] ∧
    executor_submission [0x00, 0, 0, 0, 0, 65] = some [0x00, 0, 0, 0, 0, 65] := by
  have hinv : Inv ((emptyRing 16).write [0x00, 0, 0, 0, 0, 65]).2
      ([0x00, 0, 0, 0, 0, 65] :: []) := by
    have h := (write_ok (Inv_emptyRing 16 (by norm_num) (by norm_num))
      [0x00, 0, 0, 0, 0, 65] (by decide)).2
    simpa using h
  have h5 := c5_executor_no_envelope _ _ _ hinv
  exact ⟨h5.1, h5.2.1⟩
end Buntime
